import Mathlib

/-!
Verification of the yokel local-dependency manager (src/index.js).

The tool is a thin CLI over `npm link`: it reads a consumer `package.json`,
shells out to `npm`, and writes the manifest back.  We embed the manifest as
an association list with JavaScript-object key semantics (insertion order,
first-occurrence lookup), the filesystem and subprocess outcomes as an
abstract environment of oracles, and each command handler as a pure function
returning its result, the final on-disk manifest, and a trace of the external
effects it performed (subprocess invocations and manifest writes).
-/

namespace Yokel

/-- Lookup in a JS object modelled as an association list (first occurrence). -/
def getKey : List (String × String) → String → Option String
  | [], _ => none
  | e :: t, k => if e.1 = k then some e.2 else getKey t k

/-- Assignment `obj[k] = v` on a JS object: update the existing key in place, otherwise
append at the end (JS objects preserve insertion order). -/
def setKey : List (String × String) → String → String → List (String × String)
  | [], k, v => [(k, v)]
  | e :: t, k, v => if e.1 = k then (k, v) :: t else e :: setKey t k v

/-- Deletion `delete obj[k]` on a JS object. -/
def delKey : List (String × String) → String → List (String × String)
  | [], _ => []
  | e :: t, k => if e.1 = k then delKey t k else e :: delKey t k

/-- A dependency's own `package.json` as far as the tool reads it:
`name` and `version`, either of which may be absent (JS `undefined`). -/
structure DepManifest where
  name : Option String
  version : Option String
deriving DecidableEq

/-- The consumer's `package.json`.  Top-level keys other than the two maps
the tool touches are kept abstract in `otherFields`; each of the two maps is
`none` when the key is absent from the JSON document. -/
structure Manifest where
  otherFields : List (String × String)
  dependencies : Option (List (String × String))
  localDependencies : Option (List (String × String))
deriving DecidableEq

/-- The value returned by `linkLocalDependency` (src/index.js:121):
`{ name: depName, version: depVersion, path: localPath }`. -/
structure DepInfo where
  name : String
  version : Option String
  path : String
deriving DecidableEq

/-- External effects, in the order they are performed: the two `npm link`
shapes, `npm unlink`, and a write of the consumer manifest. -/
inductive Event where
  | register (absPath : String)
  | consume (pkgName : String)
  | release (pkgName : Option String)
  | write
deriving DecidableEq

/-- Error outcomes of the handlers (each `throw` site in the source). -/
inductive YError where
  | pathNotFound (abs : String)
  | readFailed (abs : String)
  | consumerReadFailed
  | missingName (abs : String)
  | linkerError
deriving DecidableEq

/-- The environment: filesystem contents and subprocess outcomes, all
abstract oracles.  `resolvePath` is `resolve(currentPath, localPath)` for the
fixed current working directory; `readManifest` returns the parsed dependency
`package.json` at an absolute path, `none` when missing or unparseable. -/
structure Env where
  resolvePath : String → String
  pathExists : String → Bool
  readManifest : String → Option DepManifest
  registerOk : String → Bool
  consumeOk : String → Bool
  releaseOk : Option String → Bool

/-- JS template-literal stringification of a possibly-undefined value:
`` `^${v}` `` renders `undefined` as the string `"undefined"`. -/
def jsTemplate : Option String → String
  | some s => s
  | none => "undefined"

/-- Function `linkLocalDependency` (src/index.js:85-126): resolve, check existence,
read the dependency manifest, validate the name (JS falsiness: absent or
empty), run `npm link` in the dependency directory, run `npm link <name>` in
the consumer directory, and return the identity with the ORIGINAL path. -/
def linkLocalDependency (env : Env) (localPath : String) :
    Except YError DepInfo × List Event :=
  if env.pathExists (env.resolvePath localPath) then
    match env.readManifest (env.resolvePath localPath) with
    | none => (.error (.readFailed (env.resolvePath localPath)), [])
    | some dep =>
      match dep.name with
      | none => (.error (.missingName (env.resolvePath localPath)), [])
      | some n =>
        if n = "" then (.error (.missingName (env.resolvePath localPath)), [])
        else if env.registerOk (env.resolvePath localPath) then
          if env.consumeOk n then
            (.ok ⟨n, dep.version, localPath⟩,
              [.register (env.resolvePath localPath), .consume n])
          else
            (.error .linkerError,
              [.register (env.resolvePath localPath), .consume n])
        else
          (.error .linkerError, [.register (env.resolvePath localPath)])
  else
    (.error (.pathNotFound (env.resolvePath localPath)), [])

/-- The `dependencies` half of the mutation inside `updatePackageJson`
(src/index.js:142-150): create the map if absent, then set
`dependencies[name] = "^" + version`. -/
def addDep (pj : Manifest) (info : DepInfo) : Manifest :=
  { pj with dependencies := some (setKey (pj.dependencies.getD []) info.name ("^" ++ jsTemplate info.version)) }

/-- The `localDependencies` half of the mutation inside `updatePackageJson`
(src/index.js:145-153): create the map if absent, then set
`localDependencies[path] = "^" + version`. -/
def addLocalDep (pj : Manifest) (info : DepInfo) : Manifest :=
  { pj with localDependencies := some (setKey (pj.localDependencies.getD []) info.path ("^" ++ jsTemplate info.version)) }

/-- The pure manifest mutation inside `updatePackageJson`
(src/index.js:142-153): both halves. -/
def applyInstall (pj : Manifest) (info : DepInfo) : Manifest :=
  addLocalDep (addDep pj info) info

/-- Function `updatePackageJson` (src/index.js:133-163): read the consumer manifest,
apply the mutation, write it back.  `disk` is the consumer manifest on disk
(`none` = missing or unparseable). -/
def updatePackageJson (disk : Option Manifest) (info : DepInfo) :
    Except YError Manifest × Option Manifest × List Event :=
  match disk with
  | none => (.error .consumerReadFailed, none, [])
  | some pj => (.ok (applyInstall pj info), some (applyInstall pj info), [.write])

/-- Function `installSingle` (src/index.js:169-186): link, then update the manifest. -/
def installSingle (env : Env) (disk : Option Manifest) (localPath : String) :
    Except YError Unit × Option Manifest × List Event :=
  match linkLocalDependency env localPath with
  | (.error e, tr) => (.error e, disk, tr)
  | (.ok info, tr) =>
    match updatePackageJson disk info with
    | (.error e, _, tr2) => (.error e, disk, tr ++ tr2)
    | (.ok _, d, tr2) => (.ok (), d, tr ++ tr2)

/-- The per-entry loop of `installAll` (src/index.js:212-229): for each
stored path, attempt the link; on success update only the in-memory
`dependencies` map and count a success; on failure count a failure and
continue with the next entry. -/
def installAllLoop (env : Env) :
    List (String × String) → Manifest → Nat → Nat → List Event →
    Manifest × Nat × Nat × List Event
  | [], pj, succ, fail, tr => (pj, succ, fail, tr)
  | (localPath, _) :: rest, pj, succ, fail, tr =>
    match linkLocalDependency env localPath with
    | (.ok info, ev) =>
      installAllLoop env rest (addDep pj info) (succ + 1) fail (tr ++ ev)
    | (.error _, ev) =>
      installAllLoop env rest pj succ (fail + 1) (tr ++ ev)

/-- Function `installAll` (src/index.js:191-250): read the manifest; bail out with no
work when `localDependencies` is absent or empty; run the loop; write the
manifest once at the end iff at least one entry succeeded. -/
def installAll (env : Env) (disk : Option Manifest) :
    Except YError (Nat × Nat) × Option Manifest × List Event :=
  match disk with
  | none => (.error .consumerReadFailed, none, [])
  | some pj =>
    match pj.localDependencies with
    | none => (.ok (0, 0), some pj, [])
    | some ld =>
      if ld.isEmpty then (.ok (0, 0), some pj, [])
      else
        match installAllLoop env ld pj 0 0 [] with
        | (pj', succ, fail, tr) =>
          if 0 < succ then (.ok (succ, fail), some pj', tr ++ [.write])
          else (.ok (succ, fail), some pj, tr)

/-- Guarded deletion `if (obj && obj[k]) delete obj[k]` from src/index.js:280-286: delete the
key only when the map exists and the stored value is truthy (nonempty). -/
def delIfTruthy (om : Option (List (String × String))) (k : String) :
    Option (List (String × String)) :=
  match om with
  | none => none
  | some m =>
    match getKey m k with
    | none => some m
    | some v => if v = "" then some m else some (delKey m k)

/-- The pure manifest mutation of `unlinkDependency` (src/index.js:280-288):
guarded deletion from both maps. -/
def applyUninstall (pj : Manifest) (name path : String) : Manifest :=
  { pj with
    dependencies := delIfTruthy pj.dependencies name,
    localDependencies := delIfTruthy pj.localDependencies path }

/-- Function `unlinkDependency` (src/index.js:256-297): read the dependency manifest
(no name validation — `depName` is used as-is, so an absent name reaches
`npm unlink` and the deletion key as JS `undefined`, stringified to
`"undefined"` on property access), run `npm unlink <name>`, then read the
consumer manifest, delete the two entries, and write. -/
def unlinkDependency (env : Env) (disk : Option Manifest) (localPath : String) :
    Except YError Unit × Option Manifest × List Event :=
  match env.readManifest (env.resolvePath localPath) with
  | none => (.error (.readFailed (env.resolvePath localPath)), disk, [])
  | some dep =>
    if env.releaseOk dep.name then
      match disk with
      | none => (.error .consumerReadFailed, disk, [.release dep.name])
      | some pj =>
        (.ok (), some (applyUninstall pj (jsTemplate dep.name) localPath),
          [.release dep.name, .write])
    else
      (.error .linkerError, disk, [.release dep.name])

/-- Number of manifest writes in a trace. -/
def writeCount : List Event → Nat
  | [] => 0
  | .write :: t => writeCount t + 1
  | _ :: t => writeCount t

/-- No consume invocation appears in the trace. -/
def noConsume : List Event → Bool
  | [] => true
  | .consume _ :: _ => false
  | _ :: t => noConsume t

/-- No manifest write appears in the trace. -/
def noWrite : List Event → Bool
  | [] => true
  | .write :: _ => false
  | _ :: t => noWrite t

/-- The first consume invocation, if any, is preceded by a register
invocation. -/
def regBeforeCon : List Event → Bool
  | [] => true
  | .register _ :: _ => true
  | .consume _ :: _ => false
  | _ :: t => regBeforeCon t

/-- Whether linking the given stored path would succeed in this environment. -/
def linkOk (env : Env) (p : String) : Bool :=
  match (linkLocalDependency env p).1 with
  | .ok _ => true
  | .error _ => false

/-- Sample environment: every path resolves to itself and holds a manifest
named `lib` at version `2.3.0`; every subprocess succeeds. -/
def envAllOk : Env where
  resolvePath := fun s => s
  pathExists := fun _ => true
  readManifest := fun _ => some ⟨some "lib", some "2.3.0"⟩
  registerOk := fun _ => true
  consumeOk := fun _ => true
  releaseOk := fun _ => true

/-- Sample environment: the dependency manifest has no version field. -/
def envNoVersion : Env where
  resolvePath := fun s => s
  pathExists := fun _ => true
  readManifest := fun _ => some ⟨some "lib", none⟩
  registerOk := fun _ => true
  consumeOk := fun _ => true
  releaseOk := fun _ => true

/-- Sample environment: the dependency manifest has no name field. -/
def envNoName : Env where
  resolvePath := fun s => s
  pathExists := fun _ => true
  readManifest := fun _ => some ⟨none, some "1.0.0"⟩
  registerOk := fun _ => true
  consumeOk := fun _ => true
  releaseOk := fun _ => true

/-- Sample environment: `npm link` in the dependency directory fails. -/
def envRegisterFails : Env where
  resolvePath := fun s => s
  pathExists := fun _ => true
  readManifest := fun _ => some ⟨some "lib", some "1.0.0"⟩
  registerOk := fun _ => false
  consumeOk := fun _ => true
  releaseOk := fun _ => true

/-- Sample environment: a manifest exists at `../a` only, so a bulk install
over `../a` and `../b` has one success and one failure. -/
def envOneOfTwo : Env where
  resolvePath := fun s => s
  pathExists := fun _ => true
  readManifest := fun s => if s = "../a" then some ⟨some "a", some "1.0.0"⟩ else none
  registerOk := fun _ => true
  consumeOk := fun _ => true
  releaseOk := fun _ => true

/-- Sample environment: `./../lib` and `../lib` resolve to the same
directory, whose manifest is named `lib`. -/
def envAlias : Env where
  resolvePath := fun s => if s = "./../lib" then "../lib" else s
  pathExists := fun _ => true
  readManifest := fun s => if s = "../lib" then some ⟨some "lib", some "2.0.0"⟩ else none
  registerOk := fun _ => true
  consumeOk := fun _ => true
  releaseOk := fun _ => true

/-- A small consumer manifest with neither dependency map present. -/
def pjBare : Manifest := ⟨[("name", "app"), ("version", "1.0.0")], none, none⟩

/-- A consumer manifest holding a stored `"undefined"` dependency key and one
local dependency, used to exercise the unlink of a nameless dependency. -/
def pjUndef : Manifest :=
  ⟨[("name", "app")], some [("undefined", "^9.9.9")], some [("../lib", "^1.0.0")]⟩

/-- A consumer manifest with two stored local dependencies. -/
def pjTwo : Manifest :=
  ⟨[("name", "app")], some [("a", "^1.0.0")],
    some [("../a", "^1.0.0"), ("../b", "^2.0.0")]⟩

/-- A consumer manifest whose stored local-dependency key `./../lib` differs
as a string from `../lib` though both resolve to the same directory. -/
def pjAlias : Manifest :=
  ⟨[("name", "app")], some [("lib", "^2.0.0")], some [("./../lib", "^2.0.0")]⟩

theorem getKey_setKey_self (m : List (String × String)) (k v : String) :
    getKey (setKey m k v) k = some v := by
  induction m with
  | nil => simp [getKey, setKey]
  | cons e t ih =>
    by_cases h : e.1 = k
    · simp [getKey, setKey, h]
    · simp [getKey, setKey, h, ih]

theorem getKey_setKey_ne (m : List (String × String)) (k v q : String)
    (h : q ≠ k) : getKey (setKey m k v) q = getKey m q := by
  have hk : ¬ k = q := fun hh => h hh.symm
  induction m with
  | nil => simp [getKey, setKey, hk]
  | cons e t ih =>
    by_cases he : e.1 = k
    · simp [getKey, setKey, he, hk]
    · by_cases hq : e.1 = q
      · simp [getKey, setKey, he, hq, h]
      · simp [getKey, setKey, he, hq, ih]

theorem getKey_delKey_self (m : List (String × String)) (k : String) :
    getKey (delKey m k) k = none := by
  induction m with
  | nil => simp [getKey, delKey]
  | cons e t ih =>
    by_cases h : e.1 = k
    · simp [delKey, h, ih]
    · simp [getKey, delKey, h, ih]

theorem getKey_delKey_ne (m : List (String × String)) (k q : String)
    (h : q ≠ k) : getKey (delKey m k) q = getKey m q := by
  have hk : ¬ k = q := fun hh => h hh.symm
  induction m with
  | nil => simp [delKey]
  | cons e t ih =>
    by_cases he : e.1 = k
    · simp [getKey, delKey, he, hk, ih]
    · by_cases hq : e.1 = q
      · simp [getKey, delKey, he, hq, h]
      · simp [getKey, delKey, he, hq, ih]

theorem getKey_delIfTruthy_ne (om : Option (List (String × String)))
    (k q : String) (h : q ≠ k) :
    getKey ((delIfTruthy om k).getD []) q = getKey (om.getD []) q := by
  cases om with
  | none => rfl
  | some m =>
    cases hg : getKey m k with
    | none => simp [delIfTruthy, hg]
    | some v =>
      by_cases hv : v = ""
      · simp [delIfTruthy, hg, hv]
      · simp [delIfTruthy, hg, hv, getKey_delKey_ne m k q h]

theorem delIfTruthy_getKey_none (om : Option (List (String × String)))
    (k : String) (h : getKey (om.getD []) k = none) :
    delIfTruthy om k = om := by
  cases om with
  | none => rfl
  | some m =>
    simp only [Option.getD_some] at h
    simp [delIfTruthy, h]

theorem getKey_delIfTruthy_self (om : Option (List (String × String)))
    (k : String) (h : getKey (om.getD []) k ≠ some "") :
    getKey ((delIfTruthy om k).getD []) k = none := by
  cases om with
  | none => rfl
  | some m =>
    simp only [Option.getD_some] at h
    cases hg : getKey m k with
    | none => simp [delIfTruthy, hg]
    | some v =>
      rw [hg] at h
      have hv : v ≠ "" := fun hveq => h (by rw [hveq])
      simp [delIfTruthy, hg, hv, getKey_delKey_self]

theorem delIfTruthy_idem (om : Option (List (String × String))) (k : String) :
    delIfTruthy (delIfTruthy om k) k = delIfTruthy om k := by
  cases om with
  | none => rfl
  | some m =>
    cases hg : getKey m k with
    | none => simp [delIfTruthy, hg]
    | some v =>
      by_cases hv : v = ""
      · simp [delIfTruthy, hg, hv]
      · simp [delIfTruthy, hg, hv, getKey_delKey_self]

/-- Inversion of a successful `linkLocalDependency`: the environment checks
all passed, the returned identity comes from the dependency manifest with the
original path preserved, and the trace is register-then-consume. -/
theorem linkLocalDependency_ok (env : Env) (p : String) (info : DepInfo)
    (tr : List Event) (h : linkLocalDependency env p = (.ok info, tr)) :
    env.pathExists (env.resolvePath p) = true ∧
    env.readManifest (env.resolvePath p) = some ⟨some info.name, info.version⟩ ∧
    info.name ≠ "" ∧
    env.registerOk (env.resolvePath p) = true ∧
    env.consumeOk info.name = true ∧
    info.path = p ∧
    tr = [.register (env.resolvePath p), .consume info.name] := by
  cases hex : env.pathExists (env.resolvePath p) with
  | false => simp [linkLocalDependency, hex] at h
  | true =>
    cases hread : env.readManifest (env.resolvePath p) with
    | none => simp [linkLocalDependency, hex, hread] at h
    | some dep =>
      obtain ⟨dname, dver⟩ := dep
      cases dname with
      | none => simp [linkLocalDependency, hex, hread] at h
      | some n =>
        by_cases hne : n = ""
        · simp [linkLocalDependency, hex, hread, hne] at h
        · cases hreg : env.registerOk (env.resolvePath p) with
          | false => simp [linkLocalDependency, hex, hread, hne, hreg] at h
          | true =>
            cases hcon : env.consumeOk n with
            | false =>
              simp [linkLocalDependency, hex, hread, hne, hreg, hcon] at h
            | true =>
              simp only [linkLocalDependency, hex, hread, hreg, hcon,
                if_true, if_false, hne, ite_false, ite_true] at h
              injection h with h1 h2
              injection h1 with h1
              subst h2
              cases h1
              exact ⟨rfl, rfl, hne, rfl, hcon, rfl, rfl⟩

theorem writeCount_append (a b : List Event) :
    writeCount (a ++ b) = writeCount a + writeCount b := by
  induction a with
  | nil => simp [writeCount]
  | cons e t ih => cases e <;> simp [writeCount, ih] <;> omega

/-- A single-dependency link performs no manifest write. -/
theorem writeCount_link (env : Env) (p : String) :
    writeCount (linkLocalDependency env p).2 = 0 := by
  cases hex : env.pathExists (env.resolvePath p) with
  | false => simp [linkLocalDependency, hex, writeCount]
  | true =>
    cases hread : env.readManifest (env.resolvePath p) with
    | none => simp [linkLocalDependency, hex, hread, writeCount]
    | some dep =>
      obtain ⟨dname, dver⟩ := dep
      cases dname with
      | none => simp [linkLocalDependency, hex, hread, writeCount]
      | some n =>
        by_cases hne : n = ""
        · simp [linkLocalDependency, hex, hread, hne, writeCount]
        · cases hreg : env.registerOk (env.resolvePath p) with
          | false =>
            simp [linkLocalDependency, hex, hread, hne, hreg, writeCount]
          | true =>
            cases hcon : env.consumeOk n with
            | false =>
              simp [linkLocalDependency, hex, hread, hne, hreg, hcon, writeCount]
            | true =>
              simp [linkLocalDependency, hex, hread, hne, hreg, hcon, writeCount]

/-- Every stored entry either links or fails: the two counts sum to the
number of entries. -/
theorem link_counts_sum (env : Env) (ld : List (String × String)) :
    ld.countP (fun e => linkOk env e.1) +
      ld.countP (fun e => !(linkOk env e.1)) = ld.length := by
  induction ld with
  | nil => simp
  | cons e t ih =>
    cases hp : linkOk env e.1 <;> simp [List.countP_cons, hp] <;> omega

/-- Combined invariants of the bulk-install loop: the success counter adds
the number of linkable entries, the failure counter adds the rest, the
`localDependencies` map and the untouched top-level keys are never modified,
and the loop itself performs no manifest write. -/
theorem installAllLoop_spec (env : Env) (es : List (String × String)) :
    ∀ pj s f t,
      (installAllLoop env es pj s f t).2.1 =
          s + es.countP (fun e => linkOk env e.1) ∧
      (installAllLoop env es pj s f t).2.2.1 =
          f + es.countP (fun e => !(linkOk env e.1)) ∧
      (installAllLoop env es pj s f t).1.localDependencies =
          pj.localDependencies ∧
      (installAllLoop env es pj s f t).1.otherFields = pj.otherFields ∧
      writeCount (installAllLoop env es pj s f t).2.2.2 = writeCount t := by
  induction es with
  | nil => intro pj s f t; simp [installAllLoop]
  | cons e rest ih =>
    intro pj s f t
    obtain ⟨p, ver⟩ := e
    rcases hl : linkLocalDependency env p with ⟨r, ev⟩
    have hwev : writeCount ev = 0 := by
      have hw := writeCount_link env p
      rw [hl] at hw; exact hw
    cases r with
    | ok info =>
      have hok : linkOk env p = true := by simp [linkOk, hl]
      obtain ⟨ih1, ih2, ih3, ih4, ih5⟩ := ih (addDep pj info) (s + 1) f (t ++ ev)
      simp only [installAllLoop, hl]
      refine ⟨?_, ?_, ?_, ?_, ?_⟩
      · rw [ih1, List.countP_cons]; simp [hok]; omega
      · rw [ih2, List.countP_cons]; simp [hok]
      · rw [ih3]; rfl
      · rw [ih4]; rfl
      · rw [ih5, writeCount_append, hwev]; omega
    | error err =>
      have hok : linkOk env p = false := by simp [linkOk, hl]
      obtain ⟨ih1, ih2, ih3, ih4, ih5⟩ := ih pj s (f + 1) (t ++ ev)
      simp only [installAllLoop, hl]
      refine ⟨?_, ?_, ?_, ?_, ?_⟩
      · rw [ih1, List.countP_cons]; simp [hok]
      · rw [ih2, List.countP_cons]; simp [hok]; omega
      · exact ih3
      · exact ih4
      · rw [ih5, writeCount_append, hwev]; omega

/-- Inversion of a successful `installSingle`: the dependency manifest had a
name, the written manifest is `applyInstall` of the one on disk with the
identity read from the dependency manifest and the original path, and the
trace is register, consume, then a single write. -/
theorem installSingle_ok (env : Env) (pj : Manifest) (p : String)
    (hsucc : (installSingle env (some pj) p).1 = .ok ()) :
    ∃ n ver,
      env.readManifest (env.resolvePath p) = some ⟨some n, ver⟩ ∧
      (installSingle env (some pj) p).2.1 =
        some (applyInstall pj ⟨n, ver, p⟩) ∧
      (installSingle env (some pj) p).2.2 =
        [.register (env.resolvePath p), .consume n, .write] := by
  rcases hl : linkLocalDependency env p with ⟨r, tr⟩
  cases r with
  | error e => simp [installSingle, hl] at hsucc
  | ok info =>
    obtain ⟨hex, hread, hne, hreg, hcon, hpath, htr⟩ :=
      linkLocalDependency_ok env p info tr hl
    have hinfo : (⟨info.name, info.version, p⟩ : DepInfo) = info := by
      rw [← hpath]
    refine ⟨info.name, info.version, hread, ?_, ?_⟩
    · rw [hinfo]
      simp [installSingle, hl, updatePackageJson]
    · simp [installSingle, hl, updatePackageJson, htr]

/-- C1: for every successful single install of a dependency at supplied path
`p` whose manifest has name `n` and version `v`, the written consumer
manifest maps `dependencies[n]` to `"^" + v` and `localDependencies[p]` to
`"^" + v`, keyed by the original unresolved path string `p`. -/
theorem installSingle_updates_both_maps (env : Env) (pj : Manifest)
    (p n v : String)
    (hread : env.readManifest (env.resolvePath p) = some ⟨some n, some v⟩)
    (hsucc : (installSingle env (some pj) p).1 = .ok ()) :
    ∃ m', (installSingle env (some pj) p).2.1 = some m' ∧
      getKey (m'.dependencies.getD []) n = some ("^" ++ v) ∧
      getKey (m'.localDependencies.getD []) p = some ("^" ++ v) := by
  obtain ⟨n', ver', hread', hdisk, htr⟩ := installSingle_ok env pj p hsucc
  rw [hread] at hread'
  injection hread' with hd
  injection hd with h1 h2
  injection h1 with h1
  subst h1
  subst h2
  refine ⟨_, hdisk, ?_, ?_⟩
  · simp [applyInstall, addDep, addLocalDep, jsTemplate, getKey_setKey_self]
  · simp [applyInstall, addDep, addLocalDep, jsTemplate, getKey_setKey_self]

/-- Witness for C1 at a concrete environment and manifest. -/
theorem installSingle_updates_both_maps_witness :
    ∃ m', (installSingle envAllOk (some pjBare) "../lib").2.1 = some m' ∧
      getKey (m'.dependencies.getD []) "lib" = some ("^" ++ "2.3.0") ∧
      getKey (m'.localDependencies.getD []) "../lib" = some ("^" ++ "2.3.0") :=
  installSingle_updates_both_maps envAllOk pjBare "../lib" "lib" "2.3.0" rfl rfl

/-- C2: a bulk install over the N stored entries of which K fail to link
reports successCount = N − K and failureCount = K, processes every entry,
writes the consumer manifest exactly once when successCount > 0, and leaves
the on-disk manifest untouched when every entry fails. -/
theorem installAll_counts (env : Env) (pj : Manifest)
    (ld : List (String × String)) (K : Nat)
    (hld : pj.localDependencies = some ld)
    (hK : K = ld.countP (fun e => !(linkOk env e.1))) :
    (installAll env (some pj)).1 = .ok (ld.length - K, K) ∧
    K ≤ ld.length ∧
    writeCount (installAll env (some pj)).2.2 =
      (if K < ld.length then 1 else 0) ∧
    (K = ld.length → (installAll env (some pj)).2.1 = some pj) := by
  have hsum := link_counts_sum env ld
  cases hemp : ld.isEmpty with
  | true =>
    have hnil : ld = [] := List.isEmpty_iff.mp hemp
    subst hnil
    simp only [List.countP_nil] at hK
    subst hK
    simp [installAll, hld, writeCount]
  | false =>
    rcases hloop : installAllLoop env ld pj 0 0 [] with ⟨pj', succ, fail, tr⟩
    obtain ⟨s1, s2, s3, s4, s5⟩ := installAllLoop_spec env ld pj 0 0 []
    rw [hloop] at s1 s2 s3 s4 s5
    simp only at s1 s2 s4 s5
    have hw : writeCount tr = 0 := by simpa [writeCount] using s5
    have hIA : installAll env (some pj) =
        (if 0 < succ then (.ok (succ, fail), some pj', tr ++ [.write])
         else (.ok (succ, fail), some pj, tr)) := by
      simp [installAll, hld, hemp, hloop]
    rw [hIA]
    by_cases hpos : 0 < succ
    · rw [if_pos hpos]
      refine ⟨?_, by omega, ?_, ?_⟩
      · show (Except.ok (succ, fail) : Except YError (Nat × Nat)) =
          .ok (ld.length - K, K)
        have he : succ = ld.length - K ∧ fail = K := by omega
        rw [he.1, he.2]
      · show writeCount (tr ++ [.write]) = if K < ld.length then 1 else 0
        rw [writeCount_append, hw, if_pos (show K < ld.length by omega)]
        rfl
      · intro hKlen
        exact ((by omega : False)).elim
    · rw [if_neg hpos]
      refine ⟨?_, by omega, ?_, fun _ => rfl⟩
      · show (Except.ok (succ, fail) : Except YError (Nat × Nat)) =
          .ok (ld.length - K, K)
        have he : succ = ld.length - K ∧ fail = K := by omega
        rw [he.1, he.2]
      · show writeCount tr = if K < ld.length then 1 else 0
        rw [hw, if_neg (show ¬ K < ld.length by omega)]

/-- Witness for C2: two stored entries, one of which fails to link. -/
theorem installAll_counts_witness :
    (installAll envOneOfTwo (some pjTwo)).1 = .ok (1, 1) ∧
    1 ≤ 2 ∧
    writeCount (installAll envOneOfTwo (some pjTwo)).2.2 = 1 ∧
    (1 = 2 → (installAll envOneOfTwo (some pjTwo)).2.1 = some pjTwo) :=
  installAll_counts envOneOfTwo pjTwo
    [("../a", "^1.0.0"), ("../b", "^2.0.0")] 1 rfl (by decide)

/-- C3: one step of the bulk-install loop — on a successful link only the
in-memory `dependencies` map changes (via `addDep`, which sets
`dependencies[name] = "^" + version`) and the success counter is bumped; on
a failure the failure counter is bumped and the manifest is untouched; in
both cases iteration continues with the remaining entries, and the
`localDependencies` map is never modified by the loop. -/
theorem installAll_entry_step (env : Env) (p ver : String)
    (rest : List (String × String)) (pj : Manifest) (s f : Nat)
    (t : List Event) :
    (∀ info ev, linkLocalDependency env p = (.ok info, ev) →
      installAllLoop env ((p, ver) :: rest) pj s f t =
        installAllLoop env rest (addDep pj info) (s + 1) f (t ++ ev) ∧
      getKey ((addDep pj info).dependencies.getD []) info.name =
        some ("^" ++ jsTemplate info.version)) ∧
    (∀ e ev, linkLocalDependency env p = (.error e, ev) →
      installAllLoop env ((p, ver) :: rest) pj s f t =
        installAllLoop env rest pj s (f + 1) (t ++ ev)) ∧
    (installAllLoop env ((p, ver) :: rest) pj s f t).1.localDependencies =
      pj.localDependencies := by
  refine ⟨?_, ?_, ?_⟩
  · intro info ev hl
    exact ⟨by simp [installAllLoop, hl], by simp [addDep, getKey_setKey_self]⟩
  · intro e ev hl
    simp [installAllLoop, hl]
  · exact (installAllLoop_spec env ((p, ver) :: rest) pj s f t).2.2.1

/-- Witness for C3 at a concrete environment: one successful entry. -/
theorem installAll_entry_step_witness :
    installAllLoop envAllOk [("../lib", "^2.3.0")] pjBare 0 0 [] =
      installAllLoop envAllOk []
        (addDep pjBare ⟨"lib", some "2.3.0", "../lib"⟩) (0 + 1) 0
        ([] ++ [.register "../lib", .consume "lib"]) ∧
    getKey ((addDep pjBare ⟨"lib", some "2.3.0", "../lib"⟩).dependencies.getD [])
        "lib" = some ("^" ++ jsTemplate (some "2.3.0")) :=
  (installAll_entry_step envAllOk "../lib" "^2.3.0" [] pjBare 0 0 []).1
    ⟨"lib", some "2.3.0", "../lib"⟩
    [.register "../lib", .consume "lib"] rfl

/-- C4: a single install of an existing path whose manifest lacks a name
fails with the missing-name error, invokes no subprocess, performs no
manifest write, and leaves the consumer manifest on disk untouched. -/
theorem installSingle_missing_name (env : Env) (disk : Option Manifest)
    (p : String) (ver : Option String)
    (hex : env.pathExists (env.resolvePath p) = true)
    (hread : env.readManifest (env.resolvePath p) = some ⟨none, ver⟩) :
    installSingle env disk p =
      (.error (.missingName (env.resolvePath p)), disk, []) := by
  simp [installSingle, linkLocalDependency, hex, hread]

/-- Witness for C4 at a concrete environment. -/
theorem installSingle_missing_name_witness :
    installSingle envNoName (some pjBare) "../lib" =
      (.error (.missingName "../lib"), some pjBare, []) :=
  installSingle_missing_name envNoName (some pjBare) "../lib"
    (some "1.0.0") rfl rfl

/-- C5 counterexample: unlinking a path whose dependency manifest has no
name does NOT fail with a missing-name error — the operation succeeds, the
release subprocess IS invoked (with the undefined name), and the consumer
manifest IS mutated: both the stored `"undefined"` dependency key and the
`localDependencies` entry are deleted and the manifest is written. -/
theorem unlink_missing_name_counterexample :
    unlinkDependency envNoName (some pjUndef) "../lib" =
      (.ok (), some ⟨[("name", "app")], some [], some []⟩,
        [.release none, .write]) := rfl

/-- C5 (amended): unlink performs no name validation.  When the dependency
manifest lacks a name, no missing-name error is raised; the release
subcommand is invoked with the undefined name, and when it succeeds the
consumer manifest is written with the uninstall reconciliation applied under
the deletion key `"undefined"` (JS property access stringifies the undefined
name), so the manifest may be mutated. -/
theorem unlink_no_name_validation (env : Env) (disk : Option Manifest)
    (p : String) (ver : Option String)
    (hread : env.readManifest (env.resolvePath p) = some ⟨none, ver⟩) :
    (∃ rest, (unlinkDependency env disk p).2.2 = .release none :: rest) ∧
    (∀ s, (unlinkDependency env disk p).1 ≠ .error (.missingName s)) ∧
    (env.releaseOk none = true → ∀ pj, disk = some pj →
      (unlinkDependency env disk p).2.1 =
        some (applyUninstall pj "undefined" p)) := by
  cases hrel : env.releaseOk none with
  | false =>
    have hu : unlinkDependency env disk p =
        (.error .linkerError, disk, [.release none]) := by
      simp [unlinkDependency, hread, hrel]
    rw [hu]
    exact ⟨⟨[], rfl⟩, fun s => by simp, fun h => by simp [hrel] at h⟩
  | true =>
    cases disk with
    | none =>
      have hu : unlinkDependency env none p =
          (.error .consumerReadFailed, none, [.release none]) := by
        simp [unlinkDependency, hread, hrel]
      rw [hu]
      exact ⟨⟨[], rfl⟩, fun s => by simp, fun _ pj hpj => by cases hpj⟩
    | some pj =>
      have hu : unlinkDependency env (some pj) p =
          (.ok (), some (applyUninstall pj "undefined" p),
            [.release none, .write]) := by
        simp [unlinkDependency, hread, hrel, jsTemplate]
      rw [hu]
      refine ⟨⟨[.write], rfl⟩, fun s => by simp, fun _ pj' hpj => ?_⟩
      injection hpj with hpj
      rw [hpj]

/-- Witness for the amended C5 at a concrete environment. -/
theorem unlink_no_name_validation_witness :
    (∃ rest, (unlinkDependency envNoName (some pjUndef) "../lib").2.2 =
      .release none :: rest) ∧
    (∀ s, (unlinkDependency envNoName (some pjUndef) "../lib").1 ≠
      .error (.missingName s)) ∧
    (envNoName.releaseOk none = true → ∀ pj, some pjUndef = some pj →
      (unlinkDependency envNoName (some pjUndef) "../lib").2.1 =
        some (applyUninstall pj "undefined" "../lib")) :=
  unlink_no_name_validation envNoName (some pjUndef) "../lib"
    (some "1.0.0") rfl

/-- C6: in every single install the register invocation strictly precedes
any consume invocation, and if the register step fails the consume step is
never invoked, no manifest write occurs, and the on-disk manifest is
unchanged. -/
theorem register_precedes_consume (env : Env) (disk : Option Manifest)
    (p : String) :
    regBeforeCon (installSingle env disk p).2.2 = true ∧
    (env.registerOk (env.resolvePath p) = false →
      noConsume (installSingle env disk p).2.2 = true ∧
      noWrite (installSingle env disk p).2.2 = true ∧
      (installSingle env disk p).2.1 = disk) := by
  cases hex : env.pathExists (env.resolvePath p) with
  | false =>
    simp [installSingle, linkLocalDependency, hex, regBeforeCon, noConsume,
      noWrite]
  | true =>
    cases hread : env.readManifest (env.resolvePath p) with
    | none =>
      simp [installSingle, linkLocalDependency, hex, hread, regBeforeCon,
        noConsume, noWrite]
    | some dep =>
      obtain ⟨dname, dver⟩ := dep
      cases dname with
      | none =>
        simp [installSingle, linkLocalDependency, hex, hread, regBeforeCon,
          noConsume, noWrite]
      | some n =>
        by_cases hne : n = ""
        · simp [installSingle, linkLocalDependency, hex, hread, hne,
            regBeforeCon, noConsume, noWrite]
        · cases hreg : env.registerOk (env.resolvePath p) with
          | false =>
            simp [installSingle, linkLocalDependency, hex, hread, hne, hreg,
              regBeforeCon, noConsume, noWrite]
          | true =>
            cases hcon : env.consumeOk n with
            | false =>
              simp [installSingle, linkLocalDependency, hex, hread, hne,
                hreg, hcon, regBeforeCon, noConsume, noWrite]
            | true =>
              cases disk with
              | none =>
                simp [installSingle, linkLocalDependency, updatePackageJson,
                  hex, hread, hne, hreg, hcon, regBeforeCon, noConsume,
                  noWrite]
              | some pj =>
                simp [installSingle, linkLocalDependency, updatePackageJson,
                  hex, hread, hne, hreg, hcon, regBeforeCon, noConsume,
                  noWrite]

/-- Witness for C6 at an environment whose register step fails. -/
theorem register_precedes_consume_witness :
    noConsume (installSingle envRegisterFails (some pjBare) "../lib").2.2 =
      true ∧
    noWrite (installSingle envRegisterFails (some pjBare) "../lib").2.2 =
      true ∧
    (installSingle envRegisterFails (some pjBare) "../lib").2.1 =
      some pjBare :=
  (register_precedes_consume envRegisterFails (some pjBare) "../lib").2 rfl

/-- C7: the uninstall reconciliation is idempotent, and when neither key is
present it changes nothing (absence of either key is not an error). -/
theorem applyUninstall_idempotent (pj : Manifest) (n p : String) :
    applyUninstall (applyUninstall pj n p) n p = applyUninstall pj n p ∧
    (getKey (pj.dependencies.getD []) n = none →
      getKey (pj.localDependencies.getD []) p = none →
      applyUninstall pj n p = pj) := by
  constructor
  · simp [applyUninstall, delIfTruthy_idem]
  · intro h1 h2
    obtain ⟨o, d, l⟩ := pj
    simp [applyUninstall, delIfTruthy_getKey_none _ _ h1,
      delIfTruthy_getKey_none _ _ h2]

/-- Witness for C7: uninstall on a manifest with both maps absent. -/
theorem applyUninstall_idempotent_witness :
    applyUninstall pjBare "lib" "../lib" = pjBare :=
  (applyUninstall_idempotent pjBare "lib" "../lib").2 rfl rfl

/-- C8: a successful install of a dependency whose manifest has a name but
no version field stores the literal string `"^undefined"` in both maps. -/
theorem install_no_version_stores_caret_undefined (env : Env) (pj : Manifest)
    (p n : String)
    (hread : env.readManifest (env.resolvePath p) = some ⟨some n, none⟩)
    (hsucc : (installSingle env (some pj) p).1 = .ok ()) :
    ∃ m', (installSingle env (some pj) p).2.1 = some m' ∧
      getKey (m'.dependencies.getD []) n = some "^undefined" ∧
      getKey (m'.localDependencies.getD []) p = some "^undefined" := by
  obtain ⟨n', ver', hread', hdisk, htr⟩ := installSingle_ok env pj p hsucc
  rw [hread] at hread'
  injection hread' with hd
  injection hd with h1 h2
  injection h1 with h1
  subst h1
  subst h2
  refine ⟨_, hdisk, ?_, ?_⟩
  · simp [applyInstall, addDep, addLocalDep, jsTemplate, getKey_setKey_self]
  · simp [applyInstall, addDep, addLocalDep, jsTemplate, getKey_setKey_self]

/-- Witness for C8 at a concrete environment without a version. -/
theorem install_no_version_witness :
    ∃ m', (installSingle envNoVersion (some pjBare) "../lib").2.1 = some m' ∧
      getKey (m'.dependencies.getD []) "lib" = some "^undefined" ∧
      getKey (m'.localDependencies.getD []) "../lib" = some "^undefined" :=
  install_no_version_stores_caret_undefined envNoVersion pjBare "../lib"
    "lib" rfl rfl

/-- C9: a successful single install changes nothing but the two entries it
writes — every other top-level key, every other `dependencies` entry and
every other `localDependencies` entry is unchanged, and each of the two maps
is created as an empty object before insertion when absent. -/
theorem installSingle_frame (env : Env) (pj : Manifest) (p : String)
    (hsucc : (installSingle env (some pj) p).1 = .ok ()) :
    ∃ n ver m',
      env.readManifest (env.resolvePath p) = some ⟨some n, ver⟩ ∧
      (installSingle env (some pj) p).2.1 = some m' ∧
      m'.otherFields = pj.otherFields ∧
      (∀ q, q ≠ n → getKey (m'.dependencies.getD []) q =
        getKey (pj.dependencies.getD []) q) ∧
      (∀ q, q ≠ p → getKey (m'.localDependencies.getD []) q =
        getKey (pj.localDependencies.getD []) q) ∧
      (pj.dependencies = none →
        m'.dependencies = some [(n, "^" ++ jsTemplate ver)]) ∧
      (pj.localDependencies = none →
        m'.localDependencies = some [(p, "^" ++ jsTemplate ver)]) := by
  obtain ⟨n, ver, hread, hdisk, htr⟩ := installSingle_ok env pj p hsucc
  refine ⟨n, ver, _, hread, hdisk, rfl, ?_, ?_, ?_, ?_⟩
  · intro q hq
    simpa [applyInstall, addDep, addLocalDep] using
      getKey_setKey_ne (pj.dependencies.getD []) n
        ("^" ++ jsTemplate ver) q hq
  · intro q hq
    simpa [applyInstall, addDep, addLocalDep] using
      getKey_setKey_ne (pj.localDependencies.getD []) p
        ("^" ++ jsTemplate ver) q hq
  · intro h
    simp [applyInstall, addDep, addLocalDep, h, setKey]
  · intro h
    simp [applyInstall, addDep, addLocalDep, h, setKey]

/-- Witness for C9 at a concrete environment and manifest. -/
theorem installSingle_frame_witness :
    ∃ n ver m',
      envAllOk.readManifest (envAllOk.resolvePath "../lib") =
        some ⟨some n, ver⟩ ∧
      (installSingle envAllOk (some pjBare) "../lib").2.1 = some m' ∧
      m'.otherFields = pjBare.otherFields ∧
      (∀ q, q ≠ n → getKey (m'.dependencies.getD []) q =
        getKey (pjBare.dependencies.getD []) q) ∧
      (∀ q, q ≠ "../lib" → getKey (m'.localDependencies.getD []) q =
        getKey (pjBare.localDependencies.getD []) q) ∧
      (pjBare.dependencies = none →
        m'.dependencies = some [(n, "^" ++ jsTemplate ver)]) ∧
      (pjBare.localDependencies = none →
        m'.localDependencies = some [("../lib", "^" ++ jsTemplate ver)]) :=
  installSingle_frame envAllOk pjBare "../lib" rfl

/-- C10: unlink deletes the `localDependencies` entry only under exact
string equality of the stored key with the supplied path — an entry under
any other key (even one resolving to the same directory) survives — while
the `dependencies` entry for the recovered name is removed. -/
theorem unlink_exact_string_key (env : Env) (pj : Manifest) (p n : String)
    (ver : Option String)
    (hread : env.readManifest (env.resolvePath p) = some ⟨some n, ver⟩)
    (hrel : env.releaseOk (some n) = true) :
    ∃ m', (unlinkDependency env (some pj) p).2.1 = some m' ∧
      (∀ q, q ≠ p → getKey (m'.localDependencies.getD []) q =
        getKey (pj.localDependencies.getD []) q) ∧
      (getKey (pj.localDependencies.getD []) p ≠ some "" →
        getKey (m'.localDependencies.getD []) p = none) ∧
      (getKey (pj.dependencies.getD []) n ≠ some "" →
        getKey (m'.dependencies.getD []) n = none) := by
  have hu : unlinkDependency env (some pj) p =
      (.ok (), some (applyUninstall pj n p),
        [.release (some n), .write]) := by
    simp [unlinkDependency, hread, hrel, jsTemplate]
  rw [hu]
  refine ⟨applyUninstall pj n p, rfl, ?_, ?_, ?_⟩
  · intro q hq
    exact getKey_delIfTruthy_ne pj.localDependencies p q hq
  · intro h
    exact getKey_delIfTruthy_self pj.localDependencies p h
  · intro h
    exact getKey_delIfTruthy_self pj.dependencies n h

/-- Witness for C10: the stored key `./../lib` resolves to the same
directory as the supplied `../lib` but differs as a string, so it survives
the unlink while the `dependencies` entry is removed. -/
theorem unlink_exact_string_key_witness :
    ∃ m', (unlinkDependency envAlias (some pjAlias) "../lib").2.1 =
      some m' ∧
      (∀ q, q ≠ "../lib" → getKey (m'.localDependencies.getD []) q =
        getKey (pjAlias.localDependencies.getD []) q) ∧
      (getKey (pjAlias.localDependencies.getD []) "../lib" ≠ some "" →
        getKey (m'.localDependencies.getD []) "../lib" = none) ∧
      (getKey (pjAlias.dependencies.getD []) "lib" ≠ some "" →
        getKey (m'.dependencies.getD []) "lib" = none) :=
  unlink_exact_string_key envAlias pjAlias "../lib" "lib"
    (some "2.0.0") rfl rfl

end Yokel
